import Mathlib

/-!
Verification of the round-lifecycle state machine and the performance
aggregation of `src/BlockGame.py` (class `BlockMemoryGameSequence`).

Modelling conventions (shallow embedding):
* Wall-clock instants (`time.time()`, `datetime.now()`) are external inputs
  threaded in as explicit parameters; elapsed times are rationals.
* Calendar dates are `(year, month, day)` triples; `date.isoformat()` is
  injective on dates, so grouping by the iso string is modelled as grouping
  by the date value, and the `"%Y-%m"` month key as the `(year, month)` pair.
* `random.sample(population, k)` is modelled as selection without
  replacement driven by an index oracle: at each step the oracle picks the
  index of the next chosen element among the remaining population.
* Python dicts preserve insertion order, so the stats dictionaries are
  association lists keyed in first-seen order.
* Tk widget state that the game logic reads or writes is part of the game
  state: the per-cell enabled flag of each grid button (a disabled tk button
  does not fire its command), and the enabled flags of the "Next Round" and
  "Show Pattern Again" buttons.  Button colours and label texts are pure
  presentation and are not modelled.
* Each `after(ms, callback)` call registers one more independent timer and
  nothing ever cancels one, so several display chains can be in flight at
  once (the replay button stays enabled during a replay display).  The
  state keeps the list of registered, not-yet-fired callbacks and an
  external timer event fires any one of them, which over-approximates every
  possible arrival order of the real timers.
* Python code that would raise (out-of-range indexing) returns `none`.
-/

namespace BlockGame

/-- A grid position `(row, col)`, as the `(r, c)` pairs used by the code. -/
structure Pos where
  row : Nat
  col : Nat
deriving DecidableEq, Repr

/-- Round outcome, the `"Success"` / `"Fail"` strings stored in a record. -/
inductive Outcome where
  | success
  | fail
deriving DecidableEq, Repr

/-- A calendar date, standing for Python's `datetime.date`. -/
structure Date where
  year : Nat
  month : Nat
  day : Nat
deriving DecidableEq, Repr

/-- One step of `random.sample` without replacement: the oracle gives the
index (mod the remaining population size) of the element chosen next; the
chosen element is removed from the population before recursing.  `k`
elements are drawn.  When the population runs out early (Python would raise
`ValueError`) the result is truncated; the game never hits that case since
the requested length is at most the population size. -/
def sampleGo {α : Type} [DecidableEq α] (oracle : Nat → Nat) :
    Nat → List α → Nat → List α
  | 0, _, _ => []
  | _ + 1, [], _ => []
  | k + 1, p :: ps, i =>
      let chosen := (p :: ps).getD (oracle i % (p :: ps).length) p
      chosen :: sampleGo oracle k ((p :: ps).erase chosen) (i + 1)

/-- Model of `random.sample(pop, k)` driven by an index oracle. -/
def sample {α : Type} [DecidableEq α] (pop : List α) (k : Nat)
    (oracle : Nat → Nat) : List α :=
  sampleGo oracle k pop 0

/-- `all_positions = [(r, c) for r in range(grid_size) for c in range(grid_size)]`. -/
def allPositions (n : Nat) : List Pos :=
  ((List.range n) ×ˢ (List.range n)).map (fun rc => ⟨rc.1, rc.2⟩)

/-- One entry of `self.performance_data` (the dict built in `end_round`). -/
structure RoundRecord where
  round : Nat
  level : Nat
  result : Outcome
  time : ℚ
  replays : Nat
  date : Date
  month_key : Nat × Nat
  streak_after_round : Nat
deriving DecidableEq, Repr

/-- A continuation registered through `self.after(...)` during the
sequence display: `hideStep i` is a registered `hide_sequence_step(i)`
callback, `showStep i` a registered `show_sequence_step(i)` callback. -/
inductive DispStep where
  | showStep (i : Nat)
  | hideStep (i : Nat)
deriving DecidableEq, Repr

/-- The mutable state of a `BlockMemoryGameSequence` instance, restricted to
the fields the game logic reads or writes.  `buttonsEnabled p` is the tk
`state` of the grid button at `p` (`true` = `"normal"`); `nextEnabled` and
`showPatternEnabled` are the states of the "Next Round" and "Show Pattern
Again" buttons; `pending` is the list of display-step callbacks currently
registered via `after` and not yet fired, oldest first. -/
structure GameState where
  grid_size : Nat
  initial_sequence_length : Nat
  level : Nat
  correct_sequence : List Pos
  sequence_index : Nat
  showing_sequence : Bool
  round_start_time : ℚ
  replay_count : Nat
  performance_data : List RoundRecord
  current_streak : Nat
  longest_streak : Nat
  buttonsEnabled : Pos → Bool
  nextEnabled : Bool
  showPatternEnabled : Bool
  pending : List DispStep

/-- `finish_showing_sequence`: clear the showing flag, enable every grid
button, enable the "Show Pattern Again" button.  It registers no further
display step, and it does not cancel timers another chain may still have
registered. -/
def finish_showing_sequence (s : GameState) : GameState :=
  { s with showing_sequence := false,
           buttonsEnabled := fun _ => true,
           showPatternEnabled := true }

/-- `show_sequence_step(index)`: if the index is past the end of the
sequence, finish the display; otherwise highlight the cell at that index
and register one more `hide_sequence_step(index)` timer via `after`. -/
def show_sequence_step (index : Nat) (s : GameState) : GameState :=
  if s.correct_sequence.length ≤ index then finish_showing_sequence s
  else { s with pending := s.pending ++ [DispStep.hideStep index] }

/-- `hide_sequence_step(index)`: un-highlight the cell at
`correct_sequence[index]` and register a `show_sequence_step(index + 1)`
timer via `after`.  When the index is out of range the indexing raises
inside the callback, so no further timer is registered and the chain
dies. -/
def hide_sequence_step (index : Nat) (s : GameState) : GameState :=
  if index < s.correct_sequence.length then
    { s with pending := s.pending ++ [DispStep.showStep (index + 1)] }
  else s

/-- The scheduling primitive firing the `n`-th registered `after`
callback, if there is one: the fired timer is removed from the registered
list before its callback runs. -/
def fireTimer (n : Nat) (s : GameState) : GameState :=
  match s.pending[n]? with
  | none => s
  | some (DispStep.showStep i) =>
      show_sequence_step i { s with pending := s.pending.eraseIdx n }
  | some (DispStep.hideStep i) =>
      hide_sequence_step i { s with pending := s.pending.eraseIdx n }

/-- `start_new_round`: reset the per-round counters and flags, disable the
control buttons, record the start time (`now`), reset and disable the grid,
compute the sequence length `min(total_cells, initial_sequence_length +
(level - 1))`, draw the sequence by sampling without replacement from all
grid positions, and begin showing it with `show_sequence_step(0)`. -/
def start_new_round (oracle : Nat → Nat) (now : ℚ) (s : GameState) : GameState :=
  let s1 : GameState :=
    { s with sequence_index := 0,
             showing_sequence := true,
             replay_count := 0,
             nextEnabled := false,
             showPatternEnabled := false,
             round_start_time := now,
             buttonsEnabled := fun _ => false }
  let total_cells := s.grid_size * s.grid_size
  let sequence_length := min total_cells (s.initial_sequence_length + (s.level - 1))
  let seq := sample (allPositions s.grid_size) sequence_length oracle
  show_sequence_step 0 { s1 with correct_sequence := seq }

/-- `end_round(success)`: disable the board, compute the elapsed time from
the recorded start time, update the streak (increment and possibly raise
the longest streak on success, reset to 0 on failure), append the
performance record (round number = previous log length + 1, level as
played), then update the level (increment on success, reset to 1 on
failure), enable "Next Round" and disable "Show Pattern Again".  `now` is
the wall clock at resolution, `today` its calendar date. -/
def end_round (success : Bool) (now : ℚ) (today : Date) (s : GameState) : GameState :=
  let time_taken := now - s.round_start_time
  let cs := if success then s.current_streak + 1 else 0
  let ls := if success then (if cs > s.longest_streak then cs else s.longest_streak)
            else s.longest_streak
  let record : RoundRecord :=
    { round := s.performance_data.length + 1,
      level := s.level,
      result := if success then Outcome.success else Outcome.fail,
      time := time_taken,
      replays := s.replay_count,
      date := today,
      month_key := (today.year, today.month),
      streak_after_round := cs }
  { s with buttonsEnabled := fun _ => false,
           current_streak := cs,
           longest_streak := ls,
           performance_data := s.performance_data ++ [record],
           level := if success then s.level + 1 else 1,
           nextEnabled := true,
           showPatternEnabled := false }

/-- `btn.configure(state="disabled")` on the grid button at `p`. -/
def disableAt (f : Pos → Bool) (p : Pos) : Pos → Bool :=
  fun q => if q = p then false else f q

/-- `on_block_click(row, col)`: ignored while the sequence is showing;
otherwise compare the click with `correct_sequence[sequence_index]`
(`none` models the `IndexError` Python would raise when the index is out of
range).  A correct click disables that cell and advances the cursor,
ending the round successfully when the sequence is complete; a wrong click
ends the round as a failure. -/
def on_block_click (p : Pos) (now : ℚ) (today : Date) (s : GameState) :
    Option GameState :=
  if s.showing_sequence then some s
  else
    match s.correct_sequence.get? s.sequence_index with
    | none => none
    | some correct_position =>
        if p = correct_position then
          let s1 : GameState :=
            { s with buttonsEnabled := disableAt s.buttonsEnabled p,
                     sequence_index := s.sequence_index + 1 }
          if s1.sequence_index = s1.correct_sequence.length then
            some (end_round true now today s1)
          else
            some s1
        else
          let s1 : GameState :=
            { s with buttonsEnabled := disableAt s.buttonsEnabled p }
          some (end_round false now today s1)

/-- A click event on the grid cell at `p`: a disabled tk button does not
invoke its command, so `on_block_click` only runs when the button is
enabled. -/
def on_cell_clicked (p : Pos) (now : ℚ) (today : Date) (s : GameState) :
    Option GameState :=
  if s.buttonsEnabled p then on_block_click p now today s else some s

/-- `show_pattern_again`: increment the replay counter, set the showing
flag, disable the grid, and redisplay the same sequence from the start. -/
def show_pattern_again (s : GameState) : GameState :=
  show_sequence_step 0
    { s with replay_count := s.replay_count + 1,
             showing_sequence := true,
             buttonsEnabled := fun _ => false }

/-- The state right after `__init__` has created the widgets and before it
starts the first round: level is the configured initial level, counters and
the log are empty, the grid buttons are in tk's default `"normal"` state,
and the two control buttons are created disabled. -/
def freshState (grid_size initial_sequence_length initial_level : Nat) : GameState :=
  { grid_size := grid_size,
    initial_sequence_length := initial_sequence_length,
    level := initial_level,
    correct_sequence := [],
    sequence_index := 0,
    showing_sequence := false,
    round_start_time := 0,
    replay_count := 0,
    performance_data := [],
    current_streak := 0,
    longest_streak := 0,
    buttonsEnabled := fun _ => true,
    nextEnabled := false,
    showPatternEnabled := false,
    pending := [] }

/-- The state after `__init__` finishes: the constructor ends by calling
`start_new_round`. -/
def initGame (grid_size initial_sequence_length initial_level : Nat)
    (oracle : Nat → Nat) (now : ℚ) : GameState :=
  start_new_round oracle now (freshState grid_size initial_sequence_length initial_level)

/-- The externally triggerable events: a grid-cell click, the "Next Round"
button, the "Show Pattern Again" button, and one of the registered `after`
timers firing.  Each carries the external inputs (clock, calendar date,
random oracle, timer choice) it consumes. -/
inductive Event where
  | click (p : Pos) (now : ℚ) (today : Date)
  | nextRound (oracle : Nat → Nat) (now : ℚ)
  | replayRequest
  | timer (n : Nat)

/-- One externally triggered transition.  The "Next Round" and "Show
Pattern Again" handlers only run while their buttons are enabled; a click
only runs `on_block_click` while its cell's button is enabled. -/
def step (e : Event) (s : GameState) : Option GameState :=
  match e with
  | Event.click p now today => on_cell_clicked p now today s
  | Event.nextRound oracle now =>
      some (if s.nextEnabled then start_new_round oracle now s else s)
  | Event.replayRequest =>
      some (if s.showPatternEnabled then show_pattern_again s else s)
  | Event.timer n => some (fireTimer n s)

/-- The states the game can actually be in: the constructor's state,
closed under event steps. -/
inductive Reachable : GameState → Prop where
  | init (grid_size initial_sequence_length initial_level : Nat)
      (oracle : Nat → Nat) (now : ℚ) :
      Reachable (initGame grid_size initial_sequence_length initial_level oracle now)
  | next {s s' : GameState} (e : Event) :
      Reachable s → step e s = some s' → Reachable s'

/-- The per-group accumulator dict `{rounds, success, fail, total_time}`
that `_compute_daily_stats` / `_compute_monthly_stats` build per key. -/
structure StatsAcc where
  rounds : Nat
  success : Nat
  fail : Nat
  total_time : ℚ
deriving DecidableEq, Repr

/-- The zero-initialised accumulator inserted when a key is first seen. -/
def emptyAcc : StatsAcc :=
  { rounds := 0, success := 0, fail := 0, total_time := 0 }

/-- The body of the aggregation loop: bump the round count, bump `success`
when the record's result is `"Success"` and `fail` otherwise, and add the
record's time. -/
def updateAcc (a : StatsAcc) (r : RoundRecord) : StatsAcc :=
  { rounds := a.rounds + 1,
    success := if r.result = Outcome.success then a.success + 1 else a.success,
    fail := if r.result = Outcome.success then a.fail else a.fail + 1,
    total_time := a.total_time + r.time }

/-- Python-dict insert-or-update, preserving insertion order: if the key is
present its slot is updated in place, otherwise a zero accumulator is
created at the end and updated. -/
def addToGroup {κ : Type} [DecidableEq κ] (g : List (κ × StatsAcc)) (k : κ)
    (r : RoundRecord) : List (κ × StatsAcc) :=
  match g with
  | [] => [(k, updateAcc emptyAcc r)]
  | (k', a) :: rest =>
      if k' = k then (k', updateAcc a r) :: rest
      else (k', a) :: addToGroup rest k r

/-- A finished per-group summary, after the second loop has added
`avg_time`. -/
structure Stats where
  rounds : Nat
  success : Nat
  fail : Nat
  total_time : ℚ
  avg_time : ℚ
deriving DecidableEq, Repr

/-- The second loop of the stats functions:
`avg_time = total_time / rounds if rounds > 0 else 0`. -/
def finishAcc (a : StatsAcc) : Stats :=
  { rounds := a.rounds, success := a.success, fail := a.fail,
    total_time := a.total_time,
    avg_time := if a.rounds > 0 then a.total_time / (a.rounds : ℚ) else 0 }

/-- The shared shape of `_compute_daily_stats` and
`_compute_monthly_stats`: one grouping pass over `performance_data` keyed
by `key`, then the averaging pass. -/
def computeStats {κ : Type} [DecidableEq κ] (key : RoundRecord → κ)
    (log : List RoundRecord) : List (κ × Stats) :=
  ((log.foldl (fun g r => addToGroup g (key r) r) []).map
    (fun ka => (ka.1, finishAcc ka.2)))

/-- `_compute_daily_stats`: group by the record's calendar date (the
`isoformat()` string is injective on dates, so grouping by the date value
is the same grouping). -/
def compute_daily_stats (log : List RoundRecord) : List (Date × Stats) :=
  computeStats (fun r => r.date) log

/-- `_compute_monthly_stats`: group by the record's `"%Y-%m"` month key,
modelled as the `(year, month)` pair. -/
def compute_monthly_stats (log : List RoundRecord) : List ((Nat × Nat) × Stats) :=
  computeStats (fun r => r.month_key) log

/-- Python-dict key lookup on the ordered association list. -/
def lookupKey {κ β : Type} [DecidableEq κ] (k : κ) : List (κ × β) → Option β
  | [] => none
  | (k', v) :: rest => if k' = k then some v else lookupKey k rest

/-- Extending an optional accumulator by a list of records: absent keys
start from the zero accumulator on the first record. -/
def optExtend (a : Option StatsAcc) : List RoundRecord → Option StatsAcc
  | [] => a
  | r :: rs => optExtend (some (updateAcc (a.getD emptyAcc) r)) rs

/-- Finalising a whole session: a list of round resolutions, each with its
outcome, resolution clock and calendar date, processed by `end_round`. -/
def runRounds (evs : List (Bool × ℚ × Date)) (s : GameState) : GameState :=
  evs.foldl (fun st e => end_round e.1 e.2.1 e.2.2 st) s

/-- The streak bookkeeping of `end_round`, extracted on the
`(current_streak, longest_streak)` pair. -/
def stepStreak (p : Nat × Nat) (success : Bool) : Nat × Nat :=
  let cs := if success then p.1 + 1 else 0
  let ls := if success then (if cs > p.2 then cs else p.2) else p.2
  (cs, ls)

/-- Length of the run of Successes at the head of the outcome list. -/
def takeRun : List Bool → Nat
  | [] => 0
  | b :: rest => if b then takeRun rest + 1 else 0

/-- The maximum run-length of consecutive Successes: the maximum, over all
suffixes, of the Success run starting there. -/
def maxRun : List Bool → Nat
  | [] => 0
  | b :: rest => max (takeRun (b :: rest)) (maxRun rest)

/-- The best streak recorded by the loop when scanning `l` with a current
run of length `cs` already open. -/
def bestFrom : Nat → List Bool → Nat
  | _, [] => 0
  | cs, true :: rest => max (cs + 1) (bestFrom (cs + 1) rest)
  | _, false :: rest => bestFrom 0 rest

/-- The contribution of the open run at the head: only a head of Successes
can extend the carried run. -/
def headBonus : Nat → List Bool → Nat
  | cs, true :: rest => cs + takeRun (true :: rest)
  | _, _ => 0

/-- The grid lock the game maintains after resolution: while "Next Round"
is enabled and "Show Pattern Again" is still disabled — exactly how
`end_round` leaves them — every grid button is disabled.  (A display chain
left over from an earlier replay can later re-enable the grid, but its
`finish_showing_sequence` also re-enables "Show Pattern Again".) -/
def Inv (s : GameState) : Prop :=
  s.nextEnabled = true → s.showPatternEnabled = false →
    ∀ q, s.buttonsEnabled q = false

/-- Round numbers in a log are exactly the 1-based positions. -/
def LogNumbered (l : List RoundRecord) : Prop :=
  ∀ i r, l[i]? = some r → r.round = i + 1

/-- Total round count over all groups. -/
def roundsSum {κ : Type} (g : List (κ × StatsAcc)) : Nat :=
  (g.map (fun ka => ka.2.rounds)).sum

/-- The date and log used by the concrete witnesses: three records on the
same day with times 1, 2 and 3 seconds, two Successes and one Fail. -/
def demoDate : Date :=
  { year := 2025, month := 2, day := 3 }

def demoRecord (n : Nat) (res : Outcome) (t : ℚ) : RoundRecord :=
  { round := n, level := 1, result := res, time := t, replays := 0,
    date := demoDate, month_key := (2025, 2), streak_after_round := 0 }

def demoLog : List RoundRecord :=
  [demoRecord 1 Outcome.success 1, demoRecord 2 Outcome.success 2,
   demoRecord 3 Outcome.fail 3]

/-- A mid-round state used by the concrete witnesses: the display has
finished, the round is unresolved, and the target sequence is
`[(0,0), (1,1)]` with the cursor at 0. -/
def demoAwait : GameState :=
  { grid_size := 2,
    initial_sequence_length := 2,
    level := 1,
    correct_sequence := [⟨0, 0⟩, ⟨1, 1⟩],
    sequence_index := 0,
    showing_sequence := false,
    round_start_time := 0,
    replay_count := 0,
    performance_data := [],
    current_streak := 0,
    longest_streak := 0,
    buttonsEnabled := fun _ => true,
    nextEnabled := false,
    showPatternEnabled := true,
    pending := [] }

/-- Driving the game through a list of external events; `none` as soon as a
step raises. -/
def runSteps (es : List Event) (s : GameState) : Option GameState :=
  match es with
  | [] => some s
  | e :: rest =>
      match step e s with
      | none => none
      | some t => runSteps rest t

/-- A double-replay session: watch the initial display out, request replay
twice during the round (the replay button stays enabled during a replay
display), let the first replay chain finish, fail the round with a wrong
click, then let the second replay chain run to its leftover
`finish_showing_sequence` after the round has resolved. -/
def demoEvents : List Event :=
  [Event.timer 0, Event.timer 0, Event.timer 0, Event.timer 0, Event.timer 0,
   Event.timer 0,
   Event.replayRequest, Event.replayRequest,
   Event.timer 0, Event.timer 1, Event.timer 1, Event.timer 1, Event.timer 1,
   Event.timer 1,
   Event.click ⟨1, 1⟩ 5 demoDate,
   Event.timer 0, Event.timer 0, Event.timer 0, Event.timer 0, Event.timer 0,
   Event.timer 0]

/-- The state the double-replay session ends in: the round is resolved
("Next Round" enabled, one record logged), yet the stale replay chain has
re-enabled the whole grid. -/
def badState : GameState :=
  (runSteps demoEvents (initGame 2 3 1 (fun _ => 0) 0)).getD (freshState 2 3 1)

theorem getD_mem_of_mem {α : Type} (l : List α) (n : Nat) (d : α) (h : d ∈ l) :
    l.getD n d ∈ l := by
  by_cases hn : n < l.length
  · rw [List.getD_eq_getElem l d hn]
    exact List.getElem_mem hn
  · rw [List.getD_eq_default l d (Nat.le_of_not_lt hn)]
    exact h

theorem sampleGo_mem {α : Type} [DecidableEq α] (oracle : Nat → Nat) :
    ∀ (k : Nat) (pop : List α) (i : Nat) (x : α),
      x ∈ sampleGo oracle k pop i → x ∈ pop
  | 0, _, _, _, h => by simp [sampleGo] at h
  | _ + 1, [], _, _, h => by simp [sampleGo] at h
  | k + 1, p :: ps, i, x, h => by
      simp only [sampleGo, List.mem_cons] at h
      rcases h with h | h
      · subst h
        exact getD_mem_of_mem _ _ _ (List.mem_cons_self p ps)
      · exact List.mem_of_mem_erase (sampleGo_mem oracle k _ _ _ h)

theorem sampleGo_nodup {α : Type} [DecidableEq α] (oracle : Nat → Nat) :
    ∀ (k : Nat) (pop : List α) (i : Nat), pop.Nodup →
      (sampleGo oracle k pop i).Nodup
  | 0, _, _, _ => by simp [sampleGo]
  | _ + 1, [], _, _ => by simp [sampleGo]
  | k + 1, p :: ps, i, hnd => by
      simp only [sampleGo, List.nodup_cons]
      refine ⟨fun hmem => ?_, sampleGo_nodup oracle k _ _ (hnd.erase _)⟩
      exact hnd.not_mem_erase (sampleGo_mem oracle k _ _ _ hmem)

theorem sampleGo_length {α : Type} [DecidableEq α] (oracle : Nat → Nat) :
    ∀ (k : Nat) (pop : List α) (i : Nat), k ≤ pop.length →
      (sampleGo oracle k pop i).length = k
  | 0, _, _, _ => by simp [sampleGo]
  | k + 1, [], _, h => by simp at h
  | k + 1, p :: ps, i, h => by
      have hmem : (p :: ps).getD (oracle i % (p :: ps).length) p ∈ p :: ps :=
        getD_mem_of_mem _ _ _ (List.mem_cons_self p ps)
      have herase := List.length_erase_of_mem hmem
      have hk : k ≤
          ((p :: ps).erase ((p :: ps).getD (oracle i % (p :: ps).length) p)).length := by
        rw [herase]
        simp only [List.length_cons] at h ⊢
        omega
      simp only [List.length_cons] at hk
      simp only [sampleGo, List.length_cons]
      rw [sampleGo_length oracle k _ _ hk]

theorem sample_mem {α : Type} [DecidableEq α] (pop : List α) (k : Nat)
    (oracle : Nat → Nat) (x : α) (h : x ∈ sample pop k oracle) : x ∈ pop :=
  sampleGo_mem oracle k pop 0 x h

theorem sample_nodup {α : Type} [DecidableEq α] (pop : List α) (k : Nat)
    (oracle : Nat → Nat) (h : pop.Nodup) : (sample pop k oracle).Nodup :=
  sampleGo_nodup oracle k pop 0 h

theorem sample_length {α : Type} [DecidableEq α] (pop : List α) (k : Nat)
    (oracle : Nat → Nat) (h : k ≤ pop.length) :
    (sample pop k oracle).length = k :=
  sampleGo_length oracle k pop 0 h

theorem allPositions_length (n : Nat) : (allPositions n).length = n * n := by
  simp [allPositions, List.length_product, List.length_range]

theorem allPositions_nodup (n : Nat) : (allPositions n).Nodup := by
  refine List.Nodup.map ?_ (List.Nodup.product (List.nodup_range n) (List.nodup_range n))
  intro a b hab
  cases a
  cases b
  cases hab
  rfl

theorem mem_allPositions (n : Nat) (p : Pos) :
    p ∈ allPositions n ↔ p.row < n ∧ p.col < n := by
  cases p with
  | mk r c =>
      constructor
      · intro h
        rcases List.mem_map.mp h with ⟨⟨a, b⟩, hab, heq⟩
        rcases List.mem_product.mp hab with ⟨ha, hb⟩
        cases heq
        exact ⟨List.mem_range.mp ha, List.mem_range.mp hb⟩
      · rintro ⟨ha, hb⟩
        refine List.mem_map.mpr ⟨(r, c), List.mem_product.mpr ⟨?_, ?_⟩, rfl⟩
        · exact List.mem_range.mpr ha
        · exact List.mem_range.mpr hb

theorem lookupKey_addToGroup_same {κ : Type} [DecidableEq κ]
    (g : List (κ × StatsAcc)) (k : κ) (r : RoundRecord) :
    lookupKey k (addToGroup g k r)
      = some (updateAcc ((lookupKey k g).getD emptyAcc) r) := by
  induction g with
  | nil => simp [addToGroup, lookupKey]
  | cons kv rest ih =>
      cases kv with
      | mk k' a =>
          by_cases h : k' = k
          · subst h
            simp [addToGroup, lookupKey]
          · simp [addToGroup, lookupKey, h, ih]

theorem lookupKey_addToGroup_ne {κ : Type} [DecidableEq κ]
    (g : List (κ × StatsAcc)) (k k' : κ) (r : RoundRecord) (h : k' ≠ k) :
    lookupKey k (addToGroup g k' r) = lookupKey k g := by
  induction g with
  | nil => simp [addToGroup, lookupKey, h]
  | cons kv rest ih =>
      cases kv with
      | mk k'' a =>
          by_cases h2 : k'' = k'
          · subst h2
            simp [addToGroup, lookupKey, h]
          · by_cases h3 : k'' = k
            · subst h3
              simp [addToGroup, lookupKey, h2]
            · simp [addToGroup, lookupKey, h2, h3, ih]

theorem optExtend_some (a : StatsAcc) (rs : List RoundRecord) :
    optExtend (some a) rs = some (rs.foldl updateAcc a) := by
  induction rs generalizing a with
  | nil => rfl
  | cons r rs ih => simp [optExtend, List.foldl_cons, ih]

/-- Key lookup after the grouping fold: the accumulator for `k` is the
initial one extended by exactly the records whose key is `k`. -/
theorem lookupKey_groupFold {κ : Type} [DecidableEq κ] (key : RoundRecord → κ)
    (log : List RoundRecord) (g : List (κ × StatsAcc)) (k : κ) :
    lookupKey k (log.foldl (fun g r => addToGroup g (key r) r) g)
      = optExtend (lookupKey k g) (log.filter (fun r => decide (key r = k))) := by
  induction log generalizing g with
  | nil => rfl
  | cons r rest ih =>
      by_cases h : key r = k
      · subst h
        simp only [List.foldl_cons, List.filter_cons, decide_eq_true rfl, ih,
          lookupKey_addToGroup_same, optExtend]
      · rw [List.foldl_cons, ih, lookupKey_addToGroup_ne _ _ _ _ h]
        simp [List.filter_cons, h]

theorem foldl_updateAcc_rounds (rs : List RoundRecord) (a : StatsAcc) :
    (rs.foldl updateAcc a).rounds = a.rounds + rs.length := by
  induction rs generalizing a with
  | nil => simp
  | cons r rest ih => simp [List.foldl_cons, ih, updateAcc]; omega

theorem foldl_updateAcc_success (rs : List RoundRecord) (a : StatsAcc) :
    (rs.foldl updateAcc a).success
      = a.success + (rs.filter (fun r => decide (r.result = Outcome.success))).length := by
  induction rs generalizing a with
  | nil => simp
  | cons r rest ih =>
      by_cases h : r.result = Outcome.success
      · simp [List.foldl_cons, List.filter_cons, h, ih, updateAcc]
        omega
      · simp [List.foldl_cons, List.filter_cons, h, ih, updateAcc]

theorem foldl_updateAcc_fail (rs : List RoundRecord) (a : StatsAcc) :
    (rs.foldl updateAcc a).fail
      = a.fail + (rs.filter (fun r => decide (r.result = Outcome.fail))).length := by
  induction rs generalizing a with
  | nil => simp
  | cons r rest ih =>
      cases hres : r.result
      · simp [List.foldl_cons, List.filter_cons, hres, ih, updateAcc]
      · simp [List.foldl_cons, List.filter_cons, hres, ih, updateAcc]
        omega

theorem foldl_updateAcc_total (rs : List RoundRecord) (a : StatsAcc) :
    (rs.foldl updateAcc a).total_time
      = a.total_time + (rs.map (fun r => r.time)).sum := by
  induction rs generalizing a with
  | nil => simp
  | cons r rest ih =>
      simp [List.foldl_cons, ih, updateAcc]
      ring

theorem lookupKey_map_finish {κ : Type} [DecidableEq κ]
    (g : List (κ × StatsAcc)) (k : κ) :
    lookupKey k (g.map (fun ka => (ka.1, finishAcc ka.2)))
      = (lookupKey k g).map finishAcc := by
  induction g with
  | nil => rfl
  | cons kv rest ih =>
      cases kv with
      | mk k' a =>
          by_cases h : k' = k
          · subst h
            simp [lookupKey]
          · simp [lookupKey, h, ih]

/-- Characterisation of the stats lookup: the key is present iff a record
with that key occurs, and then its summary is computed from exactly those
records. -/
theorem lookupKey_computeStats {κ : Type} [DecidableEq κ]
    (key : RoundRecord → κ) (log : List RoundRecord) (k : κ) :
    lookupKey k (computeStats key log)
      = (optExtend none (log.filter (fun r => decide (key r = k)))).map finishAcc := by
  rw [computeStats, lookupKey_map_finish, lookupKey_groupFold]
  rfl

theorem end_round_current_streak (b : Bool) (now : ℚ) (today : Date)
    (s : GameState) :
    (end_round b now today s).current_streak
      = (stepStreak (s.current_streak, s.longest_streak) b).1 := by
  cases b <;> simp [end_round, stepStreak]

theorem end_round_longest_streak (b : Bool) (now : ℚ) (today : Date)
    (s : GameState) :
    (end_round b now today s).longest_streak
      = (stepStreak (s.current_streak, s.longest_streak) b).2 := by
  cases b <;> simp [end_round, stepStreak]

theorem runRounds_streaks (evs : List (Bool × ℚ × Date)) (s : GameState) :
    ((runRounds evs s).current_streak, (runRounds evs s).longest_streak)
      = (evs.map (fun e => e.1)).foldl stepStreak
          (s.current_streak, s.longest_streak) := by
  induction evs generalizing s with
  | nil => rfl
  | cons e rest ih =>
      simp only [runRounds, List.foldl_cons, List.map_cons]
      rw [show List.foldl (fun st x => end_round x.1 x.2.1 x.2.2 st)
            (end_round e.1 e.2.1 e.2.2 s) rest
          = runRounds rest (end_round e.1 e.2.1 e.2.2 s) from rfl, ih]
      rw [end_round_current_streak, end_round_longest_streak]

theorem takeRun_le_maxRun (l : List Bool) : takeRun l ≤ maxRun l := by
  cases l with
  | nil => exact Nat.le_refl 0
  | cons b rest => exact Nat.le_max_left _ _

theorem foldl_stepStreak_longest (l : List Bool) (cs ls : Nat) :
    (l.foldl stepStreak (cs, ls)).2 = max ls (bestFrom cs l) := by
  induction l generalizing cs ls with
  | nil => simp [bestFrom]
  | cons b rest ih =>
      cases b with
      | true =>
          rw [List.foldl_cons]
          rw [show stepStreak (cs, ls) true
              = (cs + 1, if cs + 1 > ls then cs + 1 else ls) from rfl]
          have hmax : (if cs + 1 > ls then cs + 1 else ls) = max ls (cs + 1) := by
            rcases Nat.lt_or_ge ls (cs + 1) with h | h
            · rw [if_pos h, Nat.max_eq_right (Nat.le_of_lt h)]
            · rw [if_neg (by omega), Nat.max_eq_left h]
          rw [hmax, ih, bestFrom, Nat.max_assoc]
      | false =>
          rw [List.foldl_cons]
          rw [show stepStreak (cs, ls) false = (0, ls) from rfl, ih, bestFrom]

theorem foldl_stepStreak_le (l : List Bool) (cs ls : Nat) (h : cs ≤ ls) :
    (l.foldl stepStreak (cs, ls)).1 ≤ (l.foldl stepStreak (cs, ls)).2 := by
  induction l generalizing cs ls with
  | nil => exact h
  | cons b rest ih =>
      cases b with
      | true =>
          rw [List.foldl_cons,
            show stepStreak (cs, ls) true
              = (cs + 1, if cs + 1 > ls then cs + 1 else ls) from rfl]
          exact ih _ _ (by split <;> omega)
      | false =>
          rw [List.foldl_cons, show stepStreak (cs, ls) false = (0, ls) from rfl]
          exact ih _ _ (Nat.zero_le ls)

theorem foldl_stepStreak_mono (l : List Bool) (cs ls : Nat) :
    ls ≤ (l.foldl stepStreak (cs, ls)).2 := by
  rw [foldl_stepStreak_longest]
  exact Nat.le_max_left _ _

theorem headBonus_le (l : List Bool) :
    headBonus 0 l ≤ maxRun l := by
  cases l with
  | nil => exact Nat.le_refl 0
  | cons b rest =>
      cases b with
      | true =>
          rw [show headBonus 0 (true :: rest) = 0 + takeRun (true :: rest) from rfl,
            Nat.zero_add]
          exact takeRun_le_maxRun _
      | false => exact Nat.zero_le _

theorem bestFrom_eq (l : List Bool) : ∀ cs : Nat,
    bestFrom cs l = max (headBonus cs l) (maxRun l) := by
  induction l with
  | nil => intro cs; simp [bestFrom, headBonus, maxRun]
  | cons b rest ih =>
      intro cs
      cases b with
      | false =>
          rw [show bestFrom cs (false :: rest) = bestFrom 0 rest from rfl, ih 0]
          rw [show headBonus cs (false :: rest) = 0 from rfl]
          rw [show maxRun (false :: rest)
            = max (takeRun (false :: rest)) (maxRun rest) from rfl]
          rw [show takeRun (false :: rest) = 0 from rfl]
          rw [Nat.max_eq_right (headBonus_le rest), Nat.zero_max, Nat.zero_max]
      | true =>
          rw [show bestFrom cs (true :: rest) = max (cs + 1) (bestFrom (cs + 1) rest) from rfl,
            ih (cs + 1)]
          rw [show headBonus cs (true :: rest) = cs + (takeRun rest + 1) from rfl]
          rw [show maxRun (true :: rest)
            = max (takeRun (true :: rest)) (maxRun rest) from rfl]
          rw [show takeRun (true :: rest) = takeRun rest + 1 from rfl]
          cases rest with
          | nil =>
              simp [headBonus, maxRun, takeRun]
          | cons b2 r2 =>
              cases b2 with
              | true =>
                  rw [show headBonus (cs + 1) (true :: r2)
                    = cs + 1 + takeRun (true :: r2) from rfl]
                  rw [show takeRun (true :: r2) = takeRun r2 + 1 from rfl]
                  have h1 := takeRun_le_maxRun (true :: r2)
                  rw [show takeRun (true :: r2) = takeRun r2 + 1 from rfl] at h1
                  omega
              | false =>
                  rw [show headBonus (cs + 1) (false :: r2) = 0 from rfl]
                  rw [show takeRun (false :: r2) = 0 from rfl]
                  omega

theorem bestFrom_zero (l : List Bool) : bestFrom 0 l = maxRun l := by
  rw [bestFrom_eq l 0, Nat.max_eq_right (headBonus_le l)]

theorem Inv_finish_showing_sequence (s : GameState) :
    Inv (finish_showing_sequence s) := by
  intro _ hsp
  exact Bool.noConfusion hsp

theorem Inv_show_sequence_step (i : Nat) (s : GameState) (h : Inv s) :
    Inv (show_sequence_step i s) := by
  rw [show_sequence_step]
  split
  · exact Inv_finish_showing_sequence s
  · intro hn hsp q
    exact h hn hsp q

theorem Inv_hide_sequence_step (i : Nat) (s : GameState) (h : Inv s) :
    Inv (hide_sequence_step i s) := by
  rw [hide_sequence_step]
  split
  · intro hn hsp q
    exact h hn hsp q
  · exact h

theorem Inv_start_new_round (oracle : Nat → Nat) (now : ℚ) (s : GameState) :
    Inv (start_new_round oracle now s) := by
  rw [start_new_round]
  apply Inv_show_sequence_step
  intro hn
  exact Bool.noConfusion hn

theorem Inv_end_round (b : Bool) (now : ℚ) (today : Date) (s : GameState) :
    Inv (end_round b now today s) :=
  fun _ _ _ => rfl

theorem Inv_show_pattern_again (s : GameState) :
    Inv (show_pattern_again s) := by
  rw [show_pattern_again]
  apply Inv_show_sequence_step
  intro _ _ _
  rfl

theorem Inv_fireTimer (n : Nat) (s : GameState) (h : Inv s) :
    Inv (fireTimer n s) := by
  rw [fireTimer]
  cases hg : s.pending[n]? with
  | none => exact h
  | some d =>
      cases d with
      | showStep i =>
          apply Inv_show_sequence_step
          intro hn hsp q
          exact h hn hsp q
      | hideStep i =>
          apply Inv_hide_sequence_step
          intro hn hsp q
          exact h hn hsp q

theorem Inv_on_block_click (p : Pos) (now : ℚ) (today : Date)
    (s s1 : GameState) (hI : Inv s)
    (h : on_block_click p now today s = some s1) : Inv s1 := by
  rw [on_block_click] at h
  by_cases hshow : s.showing_sequence
  · rw [if_pos hshow] at h
    cases h
    exact hI
  · rw [if_neg hshow] at h
    cases hget : s.correct_sequence.get? s.sequence_index with
    | none => rw [hget] at h; cases h
    | some correct =>
        rw [hget] at h
        dsimp only at h
        by_cases hp : p = correct
        · rw [if_pos hp] at h
          split at h
          · cases h
            exact Inv_end_round _ _ _ _
          · cases h
            intro hn hsp q
            simp only [disableAt]
            split
            · rfl
            · exact hI hn hsp q
        · rw [if_neg hp] at h
          cases h
          exact Inv_end_round _ _ _ _

theorem Inv_step (e : Event) (s s1 : GameState) (hI : Inv s)
    (h : step e s = some s1) : Inv s1 := by
  cases e with
  | click p now today =>
      rw [step, on_cell_clicked] at h
      by_cases hb : s.buttonsEnabled p
      · rw [if_pos hb] at h
        exact Inv_on_block_click p now today s s1 hI h
      · rw [if_neg hb] at h
        cases h
        exact hI
  | nextRound oracle now =>
      rw [step] at h
      cases h
      split
      · exact Inv_start_new_round oracle now s
      · exact hI
  | replayRequest =>
      rw [step] at h
      cases h
      split
      · exact Inv_show_pattern_again s
      · exact hI
  | timer n =>
      rw [step] at h
      cases h
      exact Inv_fireTimer n s hI

theorem Inv_of_reachable (s : GameState) (h : Reachable s) : Inv s := by
  induction h with
  | init grid_size initial_sequence_length initial_level oracle now =>
      exact Inv_start_new_round oracle now _
  | next e _ hstep ih => exact Inv_step e _ _ ih hstep

theorem runSteps_reachable (es : List Event) (s s1 : GameState)
    (hs : Reachable s) (h : runSteps es s = some s1) : Reachable s1 := by
  induction es generalizing s with
  | nil =>
      rw [runSteps] at h
      cases h
      exact hs
  | cons e rest ih =>
      rw [runSteps] at h
      cases hstep : step e s with
      | none =>
          rw [hstep] at h
          cases h
      | some t =>
          rw [hstep] at h
          exact ih t (Reachable.next e hs hstep) h

theorem end_round_longest_mono (b : Bool) (now : ℚ) (today : Date)
    (s : GameState) :
    s.longest_streak ≤ (end_round b now today s).longest_streak := by
  rw [end_round_longest_streak]
  cases b with
  | true =>
      rw [show (stepStreak (s.current_streak, s.longest_streak) true).2
        = (if s.current_streak + 1 > s.longest_streak then s.current_streak + 1
           else s.longest_streak) from rfl]
      split <;> omega
  | false => exact Nat.le_refl _

theorem LogNumbered_append (l : List RoundRecord) (rec : RoundRecord)
    (hl : LogNumbered l) (hr : rec.round = l.length + 1) :
    LogNumbered (l ++ [rec]) := by
  intro i r h
  by_cases hi : i < l.length
  · rw [List.getElem?_append_left hi] at h
    exact hl i r h
  · by_cases hi2 : i < l.length + 1
    · have heq : i = l.length := by omega
      subst heq
      rw [List.getElem?_concat_length] at h
      cases h
      exact hr
    · rw [List.getElem?_eq_none
        (by rw [List.length_append, List.length_singleton]; omega)] at h
      cases h

theorem end_round_numbered (b : Bool) (now : ℚ) (today : Date)
    (s : GameState) (h : LogNumbered s.performance_data) :
    LogNumbered (end_round b now today s).performance_data :=
  LogNumbered_append _ _ h rfl

theorem runRounds_log_length (evs : List (Bool × ℚ × Date)) (s : GameState) :
    (runRounds evs s).performance_data.length
      = s.performance_data.length + evs.length := by
  induction evs generalizing s with
  | nil => rfl
  | cons e rest ih =>
      rw [runRounds, List.foldl_cons,
        show List.foldl (fun st x => end_round x.1 x.2.1 x.2.2 st)
            (end_round e.1 e.2.1 e.2.2 s) rest
          = runRounds rest (end_round e.1 e.2.1 e.2.2 s) from rfl, ih]
      rw [show (end_round e.1 e.2.1 e.2.2 s).performance_data
        = s.performance_data ++ [_] from rfl]
      rw [List.length_append, List.length_singleton, List.length_cons]
      omega

theorem runRounds_numbered (evs : List (Bool × ℚ × Date)) (s : GameState)
    (h : LogNumbered s.performance_data) :
    LogNumbered (runRounds evs s).performance_data := by
  induction evs generalizing s with
  | nil => exact h
  | cons e rest ih =>
      rw [runRounds, List.foldl_cons]
      exact ih _ (end_round_numbered e.1 e.2.1 e.2.2 s h)

theorem computeStats_some {κ : Type} [DecidableEq κ] (key : RoundRecord → κ)
    (log : List RoundRecord) (k : κ) (st : Stats)
    (h : lookupKey k (computeStats key log) = some st) :
    st.rounds = (log.filter (fun r => decide (key r = k))).length
    ∧ st.success = ((log.filter (fun r => decide (key r = k))).filter
        (fun r => decide (r.result = Outcome.success))).length
    ∧ st.fail = ((log.filter (fun r => decide (key r = k))).filter
        (fun r => decide (r.result = Outcome.fail))).length
    ∧ st.avg_time = ((log.filter (fun r => decide (key r = k))).map
        (fun r => r.time)).sum / (st.rounds : ℚ) := by
  rw [lookupKey_computeStats] at h
  cases hrecs : log.filter (fun r => decide (key r = k)) with
  | nil =>
      rw [hrecs] at h
      cases h
  | cons r rs =>
      rw [hrecs] at h
      rw [optExtend, optExtend_some] at h
      have hacc : rs.foldl updateAcc (updateAcc (Option.getD none emptyAcc) r)
          = (r :: rs).foldl updateAcc emptyAcc := by
        rw [List.foldl_cons]
        rfl
      rw [hacc] at h
      have hst : st = finishAcc ((r :: rs).foldl updateAcc emptyAcc) := by
        cases h
        rfl
      subst hst
      have hrounds : ((r :: rs).foldl updateAcc emptyAcc).rounds = (r :: rs).length := by
        rw [foldl_updateAcc_rounds]
        simp [emptyAcc]
      refine ⟨hrounds, ?_, ?_, ?_⟩
      · rw [show (finishAcc ((r :: rs).foldl updateAcc emptyAcc)).success
          = ((r :: rs).foldl updateAcc emptyAcc).success from rfl,
          foldl_updateAcc_success]
        simp [emptyAcc]
      · rw [show (finishAcc ((r :: rs).foldl updateAcc emptyAcc)).fail
          = ((r :: rs).foldl updateAcc emptyAcc).fail from rfl,
          foldl_updateAcc_fail]
        simp [emptyAcc]
      · rw [show (finishAcc ((r :: rs).foldl updateAcc emptyAcc)).avg_time
          = (if ((r :: rs).foldl updateAcc emptyAcc).rounds > 0 then
               ((r :: rs).foldl updateAcc emptyAcc).total_time
                 / (((r :: rs).foldl updateAcc emptyAcc).rounds : ℚ)
             else 0) from rfl]
        rw [if_pos (by rw [hrounds]; exact Nat.succ_pos _), hrounds,
          foldl_updateAcc_total]
        rw [show (finishAcc ((r :: rs).foldl updateAcc emptyAcc)).rounds
          = ((r :: rs).foldl updateAcc emptyAcc).rounds from rfl, hrounds]
        rw [show emptyAcc.total_time + ((r :: rs).map (fun r => r.time)).sum
          = ((r :: rs).map (fun r => r.time)).sum from by
            rw [show emptyAcc.total_time = 0 from rfl, zero_add]]

theorem computeStats_none {κ : Type} [DecidableEq κ] (key : RoundRecord → κ)
    (log : List RoundRecord) (k : κ) :
    lookupKey k (computeStats key log) = none
      ↔ log.filter (fun r => decide (key r = k)) = [] := by
  rw [lookupKey_computeStats]
  cases hrecs : log.filter (fun r => decide (key r = k)) with
  | nil => simp [optExtend]
  | cons r rs => simp [optExtend, optExtend_some]

theorem length_filter_outcome (rs : List RoundRecord) :
    (rs.filter (fun r => decide (r.result = Outcome.success))).length
      + (rs.filter (fun r => decide (r.result = Outcome.fail))).length
      = rs.length := by
  induction rs with
  | nil => rfl
  | cons r rest ih =>
      cases h : r.result <;> simp [List.filter_cons, h] <;> omega

theorem roundsSum_addToGroup {κ : Type} [DecidableEq κ]
    (g : List (κ × StatsAcc)) (k : κ) (r : RoundRecord) :
    roundsSum (addToGroup g k r) = roundsSum g + 1 := by
  induction g with
  | nil => rfl
  | cons kv rest ih =>
      cases kv with
      | mk k' a =>
          by_cases h : k' = k
          · subst h
            simp [addToGroup, roundsSum, updateAcc]
            omega
          · simp only [addToGroup, if_neg h, roundsSum, List.map_cons,
              List.sum_cons] at ih ⊢
            rw [ih]
            omega

theorem roundsSum_fold {κ : Type} [DecidableEq κ] (key : RoundRecord → κ)
    (log : List RoundRecord) (g : List (κ × StatsAcc)) :
    roundsSum (log.foldl (fun g r => addToGroup g (key r) r) g)
      = roundsSum g + log.length := by
  induction log generalizing g with
  | nil => rfl
  | cons r rest ih =>
      rw [List.foldl_cons, ih, roundsSum_addToGroup, List.length_cons]
      omega

theorem computeStats_roundsSum {κ : Type} [DecidableEq κ]
    (key : RoundRecord → κ) (log : List RoundRecord) :
    ((computeStats key log).map (fun ks => ks.2.rounds)).sum = log.length := by
  rw [computeStats, List.map_map]
  rw [show ((fun ks : κ × Stats => ks.2.rounds)
        ∘ (fun ka : κ × StatsAcc => (ka.1, finishAcc ka.2)))
      = fun ka : κ × StatsAcc => ka.2.rounds from rfl]
  rw [show ((log.foldl (fun g r => addToGroup g (key r) r) []).map
        (fun ka : κ × StatsAcc => ka.2.rounds)).sum
      = roundsSum (log.foldl (fun g r => addToGroup g (key r) r) []) from rfl]
  rw [roundsSum_fold]
  simp [roundsSum]

theorem demo_lookup :
    lookupKey demoDate (compute_daily_stats demoLog)
      = some { rounds := 3, success := 2, fail := 1, total_time := 6,
               avg_time := 2 } := by
  simp only [demoLog, demoRecord, demoDate, compute_daily_stats, computeStats,
    List.foldl_cons, List.foldl_nil, addToGroup, updateAcc, emptyAcc,
    lookupKey, List.map_cons, List.map_nil, finishAcc]
  norm_num
  decide

/-- C1: while the round is awaiting input (display finished, not yet
resolved) with cursor `c`, clicking `sequence[c]` advances the cursor to
`c + 1` and resolves the round as a Success (one Success record appended,
"Next Round" enabled) exactly when `c + 1` equals the sequence length,
staying unresolved otherwise; clicking anything other than `sequence[c]`
resolves the round as a Fail immediately (one Fail record appended). -/
theorem claim_C1 (s : GameState) (p : Pos) (now : ℚ) (today : Date)
    (hshow : s.showing_sequence = false)
    (hres : s.nextEnabled = false)
    (hc : s.sequence_index < s.correct_sequence.length) :
    (p = s.correct_sequence.get ⟨s.sequence_index, hc⟩ →
      ∃ s1, on_block_click p now today s = some s1
        ∧ s1.sequence_index = s.sequence_index + 1
        ∧ (s.sequence_index + 1 = s.correct_sequence.length →
            s1.nextEnabled = true
            ∧ ∃ rec, s1.performance_data = s.performance_data ++ [rec]
                ∧ rec.result = Outcome.success)
        ∧ (s.sequence_index + 1 ≠ s.correct_sequence.length →
            s1.nextEnabled = false ∧ s1.performance_data = s.performance_data))
    ∧ (p ≠ s.correct_sequence.get ⟨s.sequence_index, hc⟩ →
      ∃ s1, on_block_click p now today s = some s1
        ∧ s1.nextEnabled = true
        ∧ ∃ rec, s1.performance_data = s.performance_data ++ [rec]
            ∧ rec.result = Outcome.fail) := by
  have hget : s.correct_sequence.get? s.sequence_index
      = some (s.correct_sequence.get ⟨s.sequence_index, hc⟩) :=
    List.get?_eq_get hc
  have hnotshow : ¬s.showing_sequence = true := by
    rw [hshow]
    exact Bool.false_ne_true
  constructor
  · intro hp
    by_cases hdone : s.sequence_index + 1 = s.correct_sequence.length
    · refine ⟨end_round true now today
          { s with buttonsEnabled := disableAt s.buttonsEnabled p,
                   sequence_index := s.sequence_index + 1 },
        ?_, rfl, fun _ => ⟨rfl, ?_⟩, fun hne => absurd hdone hne⟩
      · rw [on_block_click, if_neg hnotshow, hget]
        dsimp only
        rw [if_pos hp, if_pos hdone]
      · exact ⟨{ round := s.performance_data.length + 1, level := s.level,
                 result := Outcome.success,
                 time := now - s.round_start_time,
                 replays := s.replay_count, date := today,
                 month_key := (today.year, today.month),
                 streak_after_round := s.current_streak + 1 }, rfl, rfl⟩
    · refine ⟨{ s with buttonsEnabled := disableAt s.buttonsEnabled p,
                       sequence_index := s.sequence_index + 1 },
        ?_, rfl, fun hd => absurd hd hdone, fun _ => ⟨hres, rfl⟩⟩
      rw [on_block_click, if_neg hnotshow, hget]
      dsimp only
      rw [if_pos hp, if_neg hdone]
  · intro hp
    refine ⟨end_round false now today
        { s with buttonsEnabled := disableAt s.buttonsEnabled p },
      ?_, rfl, ⟨{ round := s.performance_data.length + 1, level := s.level,
                  result := Outcome.fail,
                  time := now - s.round_start_time,
                  replays := s.replay_count, date := today,
                  month_key := (today.year, today.month),
                  streak_after_round := 0 }, rfl, rfl⟩⟩
    rw [on_block_click, if_neg hnotshow, hget]
    dsimp only
    rw [if_neg hp]

theorem claim_C1_witness :
    (⟨1, 1⟩ : Pos) ≠ demoAwait.correct_sequence.get ⟨0, by decide⟩
    ∧ ∃ s1, on_block_click ⟨1, 1⟩ 5 demoDate demoAwait = some s1
        ∧ s1.nextEnabled = true
        ∧ ∃ rec, s1.performance_data = demoAwait.performance_data ++ [rec]
            ∧ rec.result = Outcome.fail :=
  ⟨by decide,
   (claim_C1 demoAwait ⟨1, 1⟩ 5 demoDate rfl rfl (by decide)).2 (by decide)⟩

/-- C2 (amended): in every reachable state, a click delivered while the
sequence is being displayed is ignored, and a click delivered after the
round has resolved is ignored as long as the "Show Pattern Again" button is
still disabled, the way `end_round` leaves it: the state is unchanged (no
cursor change, no new record, no re-resolution, no failure).  The original
claim fails when a display chain left over from a double replay finishes
after resolution and re-enables the grid — see the counterexample. -/
theorem claim_C2 (s : GameState) (hs : Reachable s) (p : Pos) (now : ℚ)
    (today : Date)
    (hphase : s.showing_sequence = true
      ∨ (s.nextEnabled = true ∧ s.showPatternEnabled = false)) :
    on_cell_clicked p now today s = some s := by
  rcases hphase with hshow | ⟨hnext, hsp⟩
  · rw [on_cell_clicked]
    split
    · rw [on_block_click, if_pos hshow]
    · rfl
  · rw [on_cell_clicked, Inv_of_reachable s hs hnext hsp p]
    rfl

theorem claim_C2_witness :
    (initGame 2 3 1 (fun _ => 0) 0).showing_sequence = true
    ∧ on_cell_clicked ⟨0, 0⟩ 1 demoDate (initGame 2 3 1 (fun _ => 0) 0)
        = some (initGame 2 3 1 (fun _ => 0) 0) :=
  ⟨by decide,
   claim_C2 (initGame 2 3 1 (fun _ => 0) 0)
     (Reachable.init 2 3 1 (fun _ => 0) 0) ⟨0, 0⟩ 1 demoDate
     (Or.inl (by decide))⟩

/-- C2 counterexample: the double-replay session reaches a resolved state
(round already logged, "Next Round" enabled) in which the stale replay
chain has re-enabled the grid, and a further wrong click is then processed:
it runs `end_round` again and appends a second record — a state change and
a side effect after resolution. -/
theorem claim_C2_counterexample :
    Reachable badState
    ∧ badState.nextEnabled = true
    ∧ badState.performance_data.length = 1
    ∧ ∃ s1, on_cell_clicked ⟨1, 1⟩ 9 demoDate badState = some s1
        ∧ s1.performance_data.length = 2 :=
  ⟨runSteps_reachable demoEvents (initGame 2 3 1 (fun _ => 0) 0) badState
     (Reachable.init 2 3 1 (fun _ => 0) 0) rfl,
   by decide, by decide,
   (on_cell_clicked ⟨1, 1⟩ 9 demoDate badState).getD (freshState 2 3 1),
   rfl, by decide⟩

/-- C3: starting a new round (at any level ≥ 1) generates a sequence of
pairwise-distinct positions of length exactly
`min(grid_size², initial_sequence_length + level − 1)`, every position
lying within the grid bounds. -/
theorem claim_C3 (oracle : Nat → Nat) (now : ℚ) (s : GameState)
    (hlev : 1 ≤ s.level) :
    (start_new_round oracle now s).correct_sequence.length
        = min (s.grid_size * s.grid_size)
            (s.initial_sequence_length + s.level - 1)
    ∧ (start_new_round oracle now s).correct_sequence.Nodup
    ∧ ∀ p ∈ (start_new_round oracle now s).correct_sequence,
        p.row < s.grid_size ∧ p.col < s.grid_size := by
  have hseq : (start_new_round oracle now s).correct_sequence
      = sample (allPositions s.grid_size)
          (min (s.grid_size * s.grid_size)
            (s.initial_sequence_length + (s.level - 1))) oracle := by
    rw [start_new_round, show_sequence_step]
    split <;> rfl
  have hk : min (s.grid_size * s.grid_size)
      (s.initial_sequence_length + (s.level - 1))
      ≤ (allPositions s.grid_size).length := by
    rw [allPositions_length]
    exact Nat.min_le_left _ _
  refine ⟨?_, ?_, ?_⟩
  · rw [hseq, sample_length _ _ _ hk]
    omega
  · rw [hseq]
    exact sample_nodup _ _ _ (allPositions_nodup _)
  · intro p hp
    rw [hseq] at hp
    exact (mem_allPositions _ p).mp (sample_mem _ _ _ _ hp)

theorem claim_C3_witness :
    1 ≤ (freshState 3 4 2).level
    ∧ ((start_new_round (fun _ => 0) 0 (freshState 3 4 2)).correct_sequence.length
          = min ((freshState 3 4 2).grid_size * (freshState 3 4 2).grid_size)
              ((freshState 3 4 2).initial_sequence_length
                + (freshState 3 4 2).level - 1)
        ∧ (start_new_round (fun _ => 0) 0 (freshState 3 4 2)).correct_sequence.Nodup
        ∧ ∀ p ∈ (start_new_round (fun _ => 0) 0 (freshState 3 4 2)).correct_sequence,
            p.row < (freshState 3 4 2).grid_size
              ∧ p.col < (freshState 3 4 2).grid_size) :=
  ⟨by decide, claim_C3 (fun _ => 0) 0 (freshState 3 4 2) (by decide)⟩

/-- C4: over any finite sequence of round finalizations started with both
streak counters at zero, `longest_streak` ends up equal to the maximum
run-length of consecutive Successes, `current_streak` never exceeds
`longest_streak`, and `longest_streak` never decreases when one more round
is finalized. -/
theorem claim_C4 (s : GameState) (h1 : s.current_streak = 0)
    (h2 : s.longest_streak = 0) (evs : List (Bool × ℚ × Date))
    (e : Bool × ℚ × Date) :
    (runRounds evs s).longest_streak = maxRun (evs.map (fun x => x.1))
    ∧ (runRounds evs s).current_streak ≤ (runRounds evs s).longest_streak
    ∧ (runRounds evs s).longest_streak
        ≤ (runRounds (evs ++ [e]) s).longest_streak := by
  have hpair := runRounds_streaks evs s
  have hcur : (runRounds evs s).current_streak
      = ((evs.map (fun x => x.1)).foldl stepStreak
          (s.current_streak, s.longest_streak)).1 := congrArg Prod.fst hpair
  have hlong : (runRounds evs s).longest_streak
      = ((evs.map (fun x => x.1)).foldl stepStreak
          (s.current_streak, s.longest_streak)).2 := congrArg Prod.snd hpair
  refine ⟨?_, ?_, ?_⟩
  · rw [hlong, h1, h2, foldl_stepStreak_longest, bestFrom_zero, Nat.zero_max]
  · rw [hcur, hlong, h1, h2]
    exact foldl_stepStreak_le _ 0 0 (Nat.le_refl 0)
  · rw [show runRounds (evs ++ [e]) s
        = end_round e.1 e.2.1 e.2.2 (runRounds evs s) from by
      rw [runRounds, runRounds, List.foldl_append, List.foldl_cons,
        List.foldl_nil]]
    exact end_round_longest_mono _ _ _ _

theorem claim_C4_witness :
    (freshState 4 3 1).current_streak = 0
    ∧ (freshState 4 3 1).longest_streak = 0
    ∧ ((runRounds [(true, 1, demoDate), (true, 2, demoDate), (false, 3, demoDate)]
          (freshState 4 3 1)).longest_streak
        = maxRun ([(true, (1 : ℚ), demoDate), (true, 2, demoDate),
            (false, 3, demoDate)].map (fun x => x.1))
      ∧ (runRounds [(true, 1, demoDate), (true, 2, demoDate), (false, 3, demoDate)]
            (freshState 4 3 1)).current_streak
          ≤ (runRounds [(true, 1, demoDate), (true, 2, demoDate), (false, 3, demoDate)]
              (freshState 4 3 1)).longest_streak
      ∧ (runRounds [(true, 1, demoDate), (true, 2, demoDate), (false, 3, demoDate)]
            (freshState 4 3 1)).longest_streak
          ≤ (runRounds ([(true, 1, demoDate), (true, 2, demoDate), (false, 3, demoDate)]
              ++ [(true, 4, demoDate)]) (freshState 4 3 1)).longest_streak) :=
  ⟨rfl, rfl,
   claim_C4 (freshState 4 3 1) rfl rfl
     [(true, 1, demoDate), (true, 2, demoDate), (false, 3, demoDate)]
     (true, 4, demoDate)⟩

/-- C5: finalizing a round with Success changes the level from `L` to
exactly `L + 1`, finalizing with Fail changes it to exactly 1, and the
resulting level is always at least 1. -/
theorem claim_C5 (s : GameState) (b : Bool) (now : ℚ) (today : Date) :
    (end_round b now today s).level = (if b then s.level + 1 else 1)
    ∧ 1 ≤ (end_round b now today s).level := by
  refine ⟨rfl, ?_⟩
  cases b with
  | true =>
      rw [show (end_round true now today s).level = s.level + 1 from rfl]
      omega
  | false => exact Nat.le_refl 1

/-- C6: each round finalization appends exactly one record, whose round
number is the previous log length + 1 and whose level field is the level
the round was played at (before the level update); consequently, starting
from an empty log, after the rounds are finalized the log holds exactly one
record per round, numbered 1..N in order. -/
theorem claim_C6 (s : GameState) (b : Bool) (now : ℚ) (today : Date)
    (evs : List (Bool × ℚ × Date)) :
    (∃ rec, (end_round b now today s).performance_data
        = s.performance_data ++ [rec]
      ∧ rec.round = s.performance_data.length + 1
      ∧ rec.level = s.level)
    ∧ (s.performance_data = [] →
        (runRounds evs s).performance_data.length = evs.length
        ∧ LogNumbered (runRounds evs s).performance_data) := by
  constructor
  · exact ⟨_, rfl, rfl, rfl⟩
  · intro hempty
    constructor
    · rw [runRounds_log_length, hempty]
      simp
    · refine runRounds_numbered evs s ?_
      rw [hempty]
      intro i r h
      cases i <;> cases h

theorem claim_C6_witness :
    demoAwait.performance_data = []
    ∧ ((∃ rec, (end_round true 7 demoDate demoAwait).performance_data
          = demoAwait.performance_data ++ [rec]
        ∧ rec.round = demoAwait.performance_data.length + 1
        ∧ rec.level = demoAwait.level)
      ∧ (demoAwait.performance_data = [] →
          (runRounds [(true, 7, demoDate), (false, 8, demoDate)]
              demoAwait).performance_data.length
            = [(true, (7 : ℚ), demoDate), (false, 8, demoDate)].length
          ∧ LogNumbered (runRounds [(true, 7, demoDate), (false, 8, demoDate)]
              demoAwait).performance_data)) :=
  ⟨rfl, claim_C6 demoAwait true 7 demoDate
    [(true, 7, demoDate), (false, 8, demoDate)]⟩

/-- C7: requesting replay (on a round with a nonempty sequence) increments
the replay count by exactly 1, re-enters the display phase at index 0 with
the identical sequence, and leaves the input cursor, the performance log,
the level and the streaks unchanged. -/
theorem claim_C7 (s : GameState) (h : 0 < s.correct_sequence.length) :
    (show_pattern_again s).replay_count = s.replay_count + 1
    ∧ (show_pattern_again s).showing_sequence = true
    ∧ (show_pattern_again s).pending = s.pending ++ [DispStep.hideStep 0]
    ∧ (show_pattern_again s).correct_sequence = s.correct_sequence
    ∧ (show_pattern_again s).sequence_index = s.sequence_index
    ∧ (show_pattern_again s).performance_data = s.performance_data
    ∧ (show_pattern_again s).level = s.level
    ∧ (show_pattern_again s).current_streak = s.current_streak
    ∧ (show_pattern_again s).longest_streak = s.longest_streak := by
  have hstep : show_pattern_again s
      = { s with replay_count := s.replay_count + 1,
                 showing_sequence := true,
                 buttonsEnabled := fun _ => false,
                 pending := s.pending ++ [DispStep.hideStep 0] } := by
    rw [show_pattern_again, show_sequence_step]
    rw [if_neg (by dsimp only; omega)]
  rw [hstep]
  exact ⟨rfl, rfl, rfl, rfl, rfl, rfl, rfl, rfl, rfl⟩

theorem claim_C7_witness :
    0 < demoAwait.correct_sequence.length
    ∧ ((show_pattern_again demoAwait).replay_count
          = demoAwait.replay_count + 1
      ∧ (show_pattern_again demoAwait).showing_sequence = true
      ∧ (show_pattern_again demoAwait).pending
          = demoAwait.pending ++ [DispStep.hideStep 0]
      ∧ (show_pattern_again demoAwait).correct_sequence
          = demoAwait.correct_sequence
      ∧ (show_pattern_again demoAwait).sequence_index
          = demoAwait.sequence_index
      ∧ (show_pattern_again demoAwait).performance_data
          = demoAwait.performance_data
      ∧ (show_pattern_again demoAwait).level = demoAwait.level
      ∧ (show_pattern_again demoAwait).current_streak
          = demoAwait.current_streak
      ∧ (show_pattern_again demoAwait).longest_streak
          = demoAwait.longest_streak) :=
  ⟨by decide, claim_C7 demoAwait (by decide)⟩

/-- C8: the daily summary maps each calendar date occurring in the log to
the count of its records, the Success and Fail counts among them, and the
average of their times; the monthly summary satisfies the same property
grouped by the year-month key. -/
theorem claim_C8 (log : List RoundRecord) (d : Date) (m : Nat × Nat) :
    (∀ st, lookupKey d (compute_daily_stats log) = some st →
        st.rounds = (log.filter (fun r => decide (r.date = d))).length
        ∧ st.success = ((log.filter (fun r => decide (r.date = d))).filter
            (fun r => decide (r.result = Outcome.success))).length
        ∧ st.fail = ((log.filter (fun r => decide (r.date = d))).filter
            (fun r => decide (r.result = Outcome.fail))).length
        ∧ st.avg_time = ((log.filter (fun r => decide (r.date = d))).map
            (fun r => r.time)).sum / (st.rounds : ℚ))
    ∧ (lookupKey d (compute_daily_stats log) = none
        ↔ log.filter (fun r => decide (r.date = d)) = [])
    ∧ (∀ st, lookupKey m (compute_monthly_stats log) = some st →
        st.rounds = (log.filter (fun r => decide (r.month_key = m))).length
        ∧ st.success = ((log.filter (fun r => decide (r.month_key = m))).filter
            (fun r => decide (r.result = Outcome.success))).length
        ∧ st.fail = ((log.filter (fun r => decide (r.month_key = m))).filter
            (fun r => decide (r.result = Outcome.fail))).length
        ∧ st.avg_time = ((log.filter (fun r => decide (r.month_key = m))).map
            (fun r => r.time)).sum / (st.rounds : ℚ))
    ∧ (lookupKey m (compute_monthly_stats log) = none
        ↔ log.filter (fun r => decide (r.month_key = m)) = []) :=
  ⟨fun st h => computeStats_some (fun r => r.date) log d st h,
   computeStats_none (fun r => r.date) log d,
   fun st h => computeStats_some (fun r => r.month_key) log m st h,
   computeStats_none (fun r => r.month_key) log m⟩

theorem claim_C8_witness :
    lookupKey demoDate (compute_daily_stats demoLog)
        = some { rounds := 3, success := 2, fail := 1, total_time := 6,
                 avg_time := 2 }
    ∧ (({ rounds := 3, success := 2, fail := 1, total_time := 6,
          avg_time := 2 } : Stats).rounds
          = (demoLog.filter (fun r => decide (r.date = demoDate))).length
      ∧ ({ rounds := 3, success := 2, fail := 1, total_time := 6,
           avg_time := 2 } : Stats).success
          = ((demoLog.filter (fun r => decide (r.date = demoDate))).filter
              (fun r => decide (r.result = Outcome.success))).length
      ∧ ({ rounds := 3, success := 2, fail := 1, total_time := 6,
           avg_time := 2 } : Stats).fail
          = ((demoLog.filter (fun r => decide (r.date = demoDate))).filter
              (fun r => decide (r.result = Outcome.fail))).length
      ∧ ({ rounds := 3, success := 2, fail := 1, total_time := 6,
           avg_time := 2 } : Stats).avg_time
          = ((demoLog.filter (fun r => decide (r.date = demoDate))).map
              (fun r => r.time)).sum
            / (({ rounds := 3, success := 2, fail := 1, total_time := 6,
                  avg_time := 2 } : Stats).rounds : ℚ)) :=
  ⟨demo_lookup,
   (claim_C8 demoLog demoDate (2025, 2)).1
     { rounds := 3, success := 2, fail := 1, total_time := 6, avg_time := 2 }
     demo_lookup⟩

/-- C9: the daily and monthly summaries of an empty performance log are
empty mappings (and the computation does not fail). -/
theorem claim_C9 :
    compute_daily_stats [] = [] ∧ compute_monthly_stats [] = [] :=
  ⟨rfl, rfl⟩

/-- C10: in both summaries, for every key the Success count plus the Fail
count equals the round count, and the round counts over all keys sum to the
length of the log. -/
theorem claim_C10 (log : List RoundRecord) :
    (∀ (k : Date) (st : Stats),
        lookupKey k (compute_daily_stats log) = some st →
          st.success + st.fail = st.rounds)
    ∧ ((compute_daily_stats log).map (fun ks => ks.2.rounds)).sum = log.length
    ∧ (∀ (k : Nat × Nat) (st : Stats),
        lookupKey k (compute_monthly_stats log) = some st →
          st.success + st.fail = st.rounds)
    ∧ ((compute_monthly_stats log).map (fun ks => ks.2.rounds)).sum
        = log.length := by
  refine ⟨?_, computeStats_roundsSum _ _, ?_, computeStats_roundsSum _ _⟩
  · intro k st h
    rcases computeStats_some (fun r => r.date) log k st h with
      ⟨hr, hs, hf, _⟩
    rw [hr, hs, hf]
    exact length_filter_outcome _
  · intro k st h
    rcases computeStats_some (fun r => r.month_key) log k st h with
      ⟨hr, hs, hf, _⟩
    rw [hr, hs, hf]
    exact length_filter_outcome _

theorem claim_C10_witness :
    lookupKey demoDate (compute_daily_stats demoLog)
        = some { rounds := 3, success := 2, fail := 1, total_time := 6,
                 avg_time := 2 }
    ∧ ({ rounds := 3, success := 2, fail := 1, total_time := 6,
         avg_time := 2 } : Stats).success
        + ({ rounds := 3, success := 2, fail := 1, total_time := 6,
             avg_time := 2 } : Stats).fail
        = ({ rounds := 3, success := 2, fail := 1, total_time := 6,
             avg_time := 2 } : Stats).rounds
    ∧ ((compute_daily_stats demoLog).map (fun ks => ks.2.rounds)).sum
        = demoLog.length :=
  ⟨demo_lookup,
   (claim_C10 demoLog).1 demoDate
     { rounds := 3, success := 2, fail := 1, total_time := 6, avg_time := 2 }
     demo_lookup,
   (claim_C10 demoLog).2.1⟩

end BlockGame
